import Mathlib

/-!
Verification of the talos agentic execution pipeline (`talos/agent.py`,
`talos/tools.py`, `talos/shell.py`, `talos/context_manager.py`, `talos/tui.py`)
against its natural-language specification.

The Python code is shallowly embedded: strings become `String`/`List Char`,
regex scans become explicit structural scanners with the exact
leftmost/greedy/lazy semantics of the patterns in the source, `json.loads`
is modelled by an executable recursive-descent parser `jsonLoads`, dynamic
(`AttributeError`-style) failures become `Except`, and effectful collaborators
(the subprocess layer) are indexed by an explicit outcome value.

Modelling notes, fixed once here:
* Python's `str.strip` / `\s` / `\w` are Unicode-aware; the embedding models
  their ASCII fragment (all inputs appearing in the repository are ASCII).
* `estimate_tokens` computes `int(len(text)/3.5)` with IEEE doubles; for every
  length below 2^50 this equals `2*len/7` in integer arithmetic, which is how
  it is modelled.
-/

namespace Talos

/-- ASCII fragment of Python's `str.strip` whitespace (also the `\s` class of
the `re` module): space, tab, newline, carriage return, vertical tab, form feed. -/
def isPySpace (c : Char) : Bool :=
  c = ' ' || c = '\t' || c = '\n' || c = '\r' || c = '\x0b' || c = '\x0c'

/-- `str.strip()` on a character list: drop whitespace from both ends. -/
def stripL (l : List Char) : List Char :=
  ((l.dropWhile isPySpace).reverse.dropWhile isPySpace).reverse

/-- `str.strip()` on a `String`. -/
def pyStrip (s : String) : String := String.mk (stripL s.toList)

/-- Python's `pat in l` substring test. -/
def containsSub (pat : List Char) : List Char → Bool
  | [] => pat.isEmpty
  | c :: t => pat.isPrefixOf (c :: t) || containsSub pat t

/-! ## `talos/agent.py`: data model and `parse_response` -/

/-- `CodeBlock` from `agent.py`: a shell command extracted from LLM output. -/
structure CodeBlock where
  command : String
  lang : String := "bash"
deriving DecidableEq

/-- `Turn` from `agent.py`: a single message in the conversation. -/
structure Turn where
  role : String
  content : String
deriving DecidableEq

/-- One element of `ParsedResponse.segments`: a `(reasoning_text, CodeBlock | None)` pair. -/
abbrev Segment := String × Option CodeBlock

/-- `ParsedResponse` from `agent.py`. Note the source dataclass carries exactly
the three fields `segments`, `raw`, `error`. -/
structure ParsedResponse where
  segments : List Segment
  raw : String
  error : String := ""
deriving DecidableEq

/-- `\w` of the code-fence regex (ASCII fragment). -/
def isWordChar (c : Char) : Bool := c.isAlphanum || c = '_'

/-- The lazy `(.*?)```` tail of `_CODE_BLOCK_RE`: scan for the earliest
closing triple backtick, returning the block body and the remainder after
the closing fence. -/
def fenceClose : List Char → Option (List Char × List Char)
  | '`' :: '`' :: '`' :: r => some ([], r)
  | c :: r => (fenceClose r).map (fun p => (c :: p.1, p.2))
  | [] => none

/-- Attempt to match `_CODE_BLOCK_RE` = ```` ```(\w*)\n(.*?)``` ```` anchored at
the head of the list: opening fence, greedy word run (the language tag), a
mandatory newline, then the lazy body up to the earliest closing fence.
Returns `(language-tag chars, body chars, rest after the closing fence)`. -/
def fenceMatchAt : List Char → Option (List Char × List Char × List Char)
  | '`' :: '`' :: '`' :: r1 =>
    match r1.dropWhile isWordChar with
    | '\n' :: r3 => (fenceClose r3).map (fun p => (r1.takeWhile isWordChar, p.1, p.2))
    | _ => none
  | _ => none

/-- Leftmost match of `_CODE_BLOCK_RE`, as `finditer` finds it: try every start
position left to right. Returns `(text before the match, language tag, body,
rest after the match)`. -/
def fenceFind : List Char → Option (List Char × List Char × List Char × List Char)
  | [] => none
  | c :: t =>
    match fenceMatchAt (c :: t) with
    | some (w, code, rest) => some ([], w, code, rest)
    | none => (fenceFind t).map (fun q => (c :: q.1, q.2.1, q.2.2.1, q.2.2.2))

/-- The `finditer` loop of `parse_response`: for each fence match emit the
stripped preceding reasoning (if non-empty) and the stripped code block (if
non-empty, with the language tag defaulting to `"bash"`), then continue after
the match; the final leftover is emitted as stripped trailing reasoning.
`fuel` only bounds the recursion; each match consumes at least seven
characters, so `length + 1` fuel can never run out, and the fuel-exhausted
branch repeats the no-match branch. -/
def parseSegs : Nat → List Char → List Segment
  | 0, l =>
    let t := pyStrip (String.mk l)
    if t = "" then [] else [(t, none)]
  | fuel + 1, l =>
    match fenceFind l with
    | none =>
      let t := pyStrip (String.mk l)
      if t = "" then [] else [(t, none)]
    | some (before, w, code, rest) =>
      let b := pyStrip (String.mk before)
      let cd := pyStrip (String.mk code)
      (if b = "" then [] else [(b, none)]) ++
      (if cd = "" then [] else [("", some ⟨cd, if w.isEmpty then "bash" else String.mk w⟩)]) ++
      parseSegs fuel rest

/-- `parse_response` from `agent.py`: split LLM output into alternating
reasoning text and code blocks; if nothing was produced, the whole stripped
input is a single reasoning segment. -/
def parse_response (text : String) : ParsedResponse :=
  let segs := parseSegs (text.length + 1) text.toList
  { segments := if segs.isEmpty then [(pyStrip text, none)] else segs
    raw := text }

/-- A fence opener (` ``` ` + word run + newline) anchored at the head:
returns the characters after the newline. -/
def fenceOpenAt : List Char → Option (List Char)
  | '`' :: '`' :: '`' :: r1 =>
    match r1.dropWhile isWordChar with
    | '\n' :: r3 => some r3
    | _ => none
  | _ => none

/-- The input contains an unclosed fence: some suffix starts with a fence
opener that has no closing triple backtick after it. -/
def hasUnclosedFence : List Char → Bool
  | [] => false
  | c :: t =>
    (match fenceOpenAt (c :: t) with
     | some r3 => (fenceClose r3).isNone
     | none => false) || hasUnclosedFence t

/-! ## Theorems about `parse_response` (claims C9, C5, C1) -/

/-- C9: for all inputs `parse_response` returns at least one segment, and the
empty input yields exactly one segment with empty reasoning text and no code
block. -/
theorem c9_parse_response_at_least_one_segment (text : String) :
    1 ≤ (parse_response text).segments.length ∧
    (parse_response "").segments = [("", none)] := by
  refine ⟨?_, by decide⟩
  by_cases h : parseSegs (text.length + 1) text.data = []
  · simp [parse_response, String.toList, h]
  · have hp := List.length_pos.mpr h
    have hb : (parseSegs (text.length + 1) text.data).isEmpty = false := by
      simp [List.isEmpty_iff, h]
    simp [parse_response, String.toList, hb]
    omega

/-- C5 counterexample: an input that contains an unclosed fence but also a
closed one does produce a `CodeBlock` and more than one segment, so the claim
as stated ("the entire input becomes a single reasoning segment") fails. -/
theorem c5_counterexample :
    hasUnclosedFence ("```\nx\n```\n```\ny".toList) = true ∧
    (parse_response "```\nx\n```\n```\ny").segments =
      [("", some ⟨"x", "bash"⟩), ("```\ny", none)] := by decide

/-- C5 amended: for every input that contains an unclosed fence and in which
the fence regex finds no (closed) match at all, `parse_response` produces no
`CodeBlock`: the entire stripped input is a single reasoning segment. -/
theorem c5_amended (text : String)
    (_hunclosed : hasUnclosedFence text.toList = true)
    (hnomatch : fenceFind text.toList = none) :
    (parse_response text).segments = [(pyStrip text, none)] := by
  simp only [String.toList] at hnomatch
  by_cases h : pyStrip text = "" <;>
    simp [parse_response, parseSegs, String.toList, hnomatch, h]

/-- C5 witness: the amended theorem applied to the unclosed-fence input used by
the repository's own parser test. -/
theorem c5_witness :
    (parse_response "Here is some text\n```bash\nls -la\nno closing").segments =
      [("Here is some text\n```bash\nls -la\nno closing", none)] :=
  c5_amended "Here is some text\n```bash\nls -la\nno closing" (by decide) (by decide)

/-- C1: the code in `agent.py` does not extract think blocks or tool calls at
all — `ParsedResponse` carries only `segments`, `raw`, `error`, and on the
repository's own test inputs the `<think>…</think>` and `<tool_call>…</tool_call>`
text stays verbatim inside the single reasoning segment instead of being
extracted into `think_blocks` / `tool_calls`. -/
theorem c1_think_and_tool_text_left_in_reasoning :
    (parse_response "<think>Let me analyze this step by step.\n1. First check X\n2. Then Y</think>\n\nThe answer is 42.").segments =
      [("<think>Let me analyze this step by step.\n1. First check X\n2. Then Y</think>\n\nThe answer is 42.", none)] ∧
    containsSub "<think>".toList
      "<think>Let me analyze this step by step.\n1. First check X\n2. Then Y</think>\n\nThe answer is 42.".toList = true ∧
    (parse_response "Let me read that.\n<tool_call>\x7b\"name\": \"file_read\", \"arguments\": \x7b\"path\": \"/tmp/test\"\x7d\x7d</tool_call>").segments =
      [("Let me read that.\n<tool_call>\x7b\"name\": \"file_read\", \"arguments\": \x7b\"path\": \"/tmp/test\"\x7d\x7d</tool_call>", none)] := by
  decide

/-! ## A model of Python values and `json.loads`

`_parse_sse_line` and `parse_tool_calls` manipulate the dynamic values
returned by `json.loads`. `Json` models those values (`Json.null` doubles as
Python's `None`); numbers keep their raw token (their exact float value is
never consumed by the code under verification, only their truthiness).
Dictionary lookups model Python's last-duplicate-wins semantics, and lookups
or subscripts on values of the wrong shape become `Except.error`, the image of
an uncaught Python exception. -/

/-- A decoded JSON value / dynamically-typed Python value. -/
inductive Json where
  | null
  | bool (b : Bool)
  | num (raw : String)
  | str (s : String)
  | arr (elems : List Json)
  | obj (members : List (String × Json))

/-- JSON inter-token whitespace. -/
def isJsonWs (c : Char) : Bool := c = ' ' || c = '\t' || c = '\n' || c = '\r'

/-- Skip JSON whitespace. -/
def skipWs (l : List Char) : List Char := l.dropWhile isJsonWs

/-- Value of a hex digit in a `\u` escape. -/
def hexDigit (c : Char) : Option Nat :=
  if c.isDigit then some (c.toNat - 48)
  else if 'a' ≤ c && c ≤ 'f' then some (c.toNat - 87)
  else if 'A' ≤ c && c ≤ 'F' then some (c.toNat - 55)
  else none

/-- Code point of a four-hex-digit `\u` escape. -/
def hexQuad (a b c d : Char) : Option Nat :=
  match hexDigit a, hexDigit b, hexDigit c, hexDigit d with
  | some x, some y, some z, some w => some (4096 * x + 256 * y + 16 * z + w)
  | _, _, _, _ => none

/-- The two-character escapes of JSON strings. -/
def unescapeChar : Char → Option Char
  | '"' => some '"'
  | '\\' => some '\\'
  | '/' => some '/'
  | 'b' => some '\x08'
  | 'f' => some '\x0c'
  | 'n' => some '\n'
  | 'r' => some '\r'
  | 't' => some '\t'
  | _ => none

/-- Body of a JSON string after the opening quote: content up to the closing
quote, decoding escapes; raw control characters are rejected as `json.loads`
does in strict mode. (Surrogate-pair recombination is not modelled; no input
in the repository uses `\u` escapes.) -/
def parseStrBody : List Char → Option (List Char × List Char)
  | '"' :: rest => some ([], rest)
  | '\\' :: 'u' :: a :: b :: c :: d :: rest =>
    match hexQuad a b c d with
    | some n => (parseStrBody rest).map (fun p => (Char.ofNat n :: p.1, p.2))
    | none => none
  | '\\' :: e :: rest =>
    match unescapeChar e with
    | some ch => (parseStrBody rest).map (fun p => (ch :: p.1, p.2))
    | none => none
  | c :: rest =>
    if c.toNat < 32 then none
    else (parseStrBody rest).map (fun p => (c :: p.1, p.2))
  | [] => none

/-- Longest digit run and the remainder. -/
def takeDigits (l : List Char) : List Char × List Char :=
  (l.takeWhile Char.isDigit, l.dropWhile Char.isDigit)

/-- Exponent part of a JSON number token (accepts the empty part). -/
def parseExpPart (acc : List Char) : List Char → Option (List Char × List Char)
  | c :: r =>
    if c = 'e' || c = 'E' then
      let (sgn, r2) : List Char × List Char :=
        match r with
        | '+' :: rr => (['+'], rr)
        | '-' :: rr => (['-'], rr)
        | _ => ([], r)
      let (ds, r3) := takeDigits r2
      if ds.isEmpty then none else some (acc ++ c :: (sgn ++ ds), r3)
    else some (acc, c :: r)
  | [] => some (acc, [])

/-- Fraction part of a JSON number token (accepts the empty part). -/
def parseFracPart (acc : List Char) : List Char → Option (List Char × List Char)
  | '.' :: r =>
    let (ds, r2) := takeDigits r
    if ds.isEmpty then none else parseExpPart (acc ++ '.' :: ds) r2
  | l => parseExpPart acc l

/-- A JSON number token (sign, integer part without leading zeros, optional
fraction and exponent), returned raw. -/
def parseNumTok (l : List Char) : Option (List Char × List Char) :=
  let (sgn, l1) : List Char × List Char :=
    match l with
    | '-' :: r => (['-'], r)
    | _ => ([], l)
  match l1 with
  | '0' :: c :: r => if c.isDigit then none else parseFracPart (sgn ++ ['0']) (c :: r)
  | ['0'] => parseFracPart (sgn ++ ['0']) []
  | c :: _ =>
    if c.isDigit then
      let (ds, r) := takeDigits l1
      parseFracPart (sgn ++ ds) r
    else none
  | [] => none

/-- Comma-separated array items up to the closing bracket, given the value
parser `pv`. The fuel bounds the number of items; every item consumes at least
one character, so `length + 1` fuel cannot run out. -/
def parseItems (pv : List Char → Option (Json × List Char)) :
    Nat → List Char → Option (List Json × List Char)
  | 0, _ => none
  | fuel + 1, l =>
    match pv l with
    | none => none
    | some (v, r) =>
      match skipWs r with
      | ']' :: r2 => some ([v], r2)
      | ',' :: r2 => (parseItems pv fuel r2).map (fun p => (v :: p.1, p.2))
      | _ => none

/-- Comma-separated object members up to the closing brace, given the value
parser `pv`. -/
def parseMembers (pv : List Char → Option (Json × List Char)) :
    Nat → List Char → Option (List (String × Json) × List Char)
  | 0, _ => none
  | fuel + 1, l =>
    match skipWs l with
    | '"' :: r =>
      match parseStrBody r with
      | none => none
      | some (k, r2) =>
        match skipWs r2 with
        | ':' :: r3 =>
          match pv r3 with
          | none => none
          | some (v, r4) =>
            match skipWs r4 with
            | '}' :: r5 => some ([(String.mk k, v)], r5)
            | ',' :: r5 => (parseMembers pv fuel r5).map (fun p => ((String.mk k, v) :: p.1, p.2))
            | _ => none
        | _ => none
    | _ => none

/-- One JSON value (with leading whitespace), structurally recursive on a
nesting-depth fuel. Each nesting level consumes at least one character before
recursing, so `length + 1` fuel cannot run out. `NaN`/`Infinity`/`-Infinity`
are accepted as `json.loads` does by default. -/
def parseObjTail (pv : List Char → Option (Json × List Char)) (r : List Char) :
    Option (Json × List Char) :=
  match skipWs r with
  | '}' :: r2 => some (.obj [], r2)
  | _ => (parseMembers pv (r.length + 1) r).map (fun p => (.obj p.1, p.2))

def parseVal : Nat → List Char → Option (Json × List Char)
  | 0, _ => none
  | fuel + 1, l =>
    match skipWs l with
    | '{' :: r => parseObjTail (parseVal fuel) r
    | '[' :: r =>
      match skipWs r with
      | ']' :: r2 => some (.arr [], r2)
      | _ => (parseItems (parseVal fuel) (r.length + 1) r).map (fun p => (.arr p.1, p.2))
    | '"' :: r => (parseStrBody r).map (fun p => (.str (String.mk p.1), p.2))
    | 't' :: 'r' :: 'u' :: 'e' :: r => some (.bool true, r)
    | 'f' :: 'a' :: 'l' :: 's' :: 'e' :: r => some (.bool false, r)
    | 'n' :: 'u' :: 'l' :: 'l' :: r => some (.null, r)
    | 'N' :: 'a' :: 'N' :: r => some (.num "NaN", r)
    | 'I' :: 'n' :: 'f' :: 'i' :: 'n' :: 'i' :: 't' :: 'y' :: r => some (.num "Infinity", r)
    | '-' :: 'I' :: 'n' :: 'f' :: 'i' :: 'n' :: 'i' :: 't' :: 'y' :: r => some (.num "-Infinity", r)
    | l2 => (parseNumTok l2).map (fun p => (.num (String.mk p.1), p.2))

/-- `json.loads` on a character list: one value, then only trailing
whitespace. -/
def jsonLoadsL (l : List Char) : Option Json :=
  match parseVal (l.length + 1) l with
  | some (j, r) => if skipWs r = [] then some j else none
  | none => none

/-- `json.loads` on a `String`. -/
def jsonLoads (s : String) : Option Json := jsonLoadsL s.toList

/-- The digits of a number token's mantissa are all zero (so the float is
falsy). Tokens forced to zero only by float underflow are not modelled. -/
def jsonNumIsZero (raw : String) : Bool :=
  let mantissa := raw.toList.takeWhile (fun c => !(c = 'e' || c = 'E'))
  let digits := mantissa.filter Char.isDigit
  !digits.isEmpty && digits.all (· = '0')

/-- Python truthiness of a decoded JSON value. -/
def pyTruthy : Json → Bool
  | .null => false
  | .bool b => b
  | .num raw => !(jsonNumIsZero raw)
  | .str s => !(s == "")
  | .arr l => !l.isEmpty
  | .obj m => !m.isEmpty

/-- `dict` lookup with Python's last-duplicate-wins insertion semantics. -/
def jsonObjGet (members : List (String × Json)) (key : String) (dflt : Json) : Json :=
  match members.reverse.find? (fun p => p.1 == key) with
  | some p => p.2
  | none => dflt

/-- Python's `value.get(key, default)`: a lookup on a dict, an uncaught
`AttributeError` on anything else. -/
def pyGetD : Json → String → Json → Except String Json
  | .obj m, key, dflt => .ok (jsonObjGet m key dflt)
  | _, _, _ => .error "AttributeError"

/-- Python's `value[0]`: head of a list, first character of a string,
`KeyError` on a dict (JSON object keys are strings, never the int `0`),
`IndexError` / `TypeError` otherwise. -/
def pyIndex0 : Json → Except String Json
  | .arr (x :: _) => .ok x
  | .arr [] => .error "IndexError"
  | .str s =>
    match s.toList with
    | c :: _ => .ok (.str (String.mk [c]))
    | [] => .error "IndexError"
  | .obj _ => .error "KeyError"
  | _ => .error "TypeError"

/-! ## `_parse_sse_line` from `agent.py` -/

/-- `choice.get("finish_reason") in ("stop", "length")`. -/
def finishIsStop : Json → Bool
  | .str s => s == "stop" || s == "length"
  | _ => false

/-- The part of `_parse_sse_line` after `json.loads` succeeds: read
`choices`, bail out on a falsy list, take the first choice, end the stream on
`finish_reason` stop/length, otherwise return the delta's content (defaulting
to the empty string). -/
def sseTail (data : Json) : Except String Json :=
  match pyGetD data "choices" (.arr []) with
  | .error e => .error e
  | .ok choices =>
    if pyTruthy choices then
      match pyIndex0 choices with
      | .error e => .error e
      | .ok choice =>
        match pyGetD choice "finish_reason" .null with
        | .error e => .error e
        | .ok fr =>
          if finishIsStop fr then .ok (.str "")
          else
            match pyGetD choice "delta" (.obj []) with
            | .error e => .error e
            | .ok delta => pyGetD delta "content" (.str "")
    else .ok .null

/-- `_parse_sse_line` from `agent.py`. The returned `Json` is the Python
return value (`Json.null` is Python's `None`, the caller's ignore signal;
`Json.str ""` is the caller's end-of-stream signal); `Except.error` is an
uncaught exception. -/
def _parse_sse_line (line : String) : Except String Json :=
  let l := stripL line.toList
  if l.isEmpty then .ok .null
  else if [':'].isPrefixOf l then .ok .null
  else if !("data: ".toList.isPrefixOf l) then .ok .null
  else
    let payload := l.drop 6
    if stripL payload = "[DONE]".toList then .ok (.str "")
    else
      match jsonLoadsL payload with
      | none => .ok .null
      | some data => sseTail data

/-- The payload of a well-formed `data: ` SSE line, after the source's
stripping; `none` for blank, comment, or non-data lines. -/
def sseDataPayload (line : String) : Option (List Char) :=
  let l := stripL line.toList
  if l.isEmpty then none
  else if [':'].isPrefixOf l then none
  else if !("data: ".toList.isPrefixOf l) then none
  else some (l.drop 6)

/-- The line is the literal `[DONE]` end-of-stream sentinel. -/
def sseIsDone (line : String) : Bool :=
  match sseDataPayload line with
  | some p => stripL p = "[DONE]".toList
  | none => false

/-- The decoded first choice carries `finish_reason` stop/length. -/
def dataFinishStop (data : Json) : Bool :=
  match pyGetD data "choices" (.arr []) with
  | .error _ => false
  | .ok choices =>
    if pyTruthy choices then
      match pyIndex0 choices with
      | .error _ => false
      | .ok choice =>
        match pyGetD choice "finish_reason" .null with
        | .error _ => false
        | .ok fr => finishIsStop fr
    else false

/-- The decoded first choice is not a finish chunk and its delta's content is
the empty string (explicitly, or by the default taken when the key is
absent). -/
def dataEmptyContent (data : Json) : Bool :=
  match pyGetD data "choices" (.arr []) with
  | .error _ => false
  | .ok choices =>
    if pyTruthy choices then
      match pyIndex0 choices with
      | .error _ => false
      | .ok choice =>
        match pyGetD choice "finish_reason" .null with
        | .error _ => false
        | .ok fr =>
          if finishIsStop fr then false
          else
            match pyGetD choice "delta" (.obj []) with
            | .error _ => false
            | .ok delta =>
              match pyGetD delta "content" (.str "") with
              | .ok (.str s) => s == ""
              | _ => false
    else false

/-- The line decodes to a chunk whose first choice is a finish chunk. -/
def sseFinishStop (line : String) : Bool :=
  match sseDataPayload line with
  | none => false
  | some p =>
    if stripL p = "[DONE]".toList then false
    else
      match jsonLoadsL p with
      | none => false
      | some data => dataFinishStop data

/-- The line decodes to a chunk whose first choice carries an empty (or
absent) content delta without a finish reason. -/
def sseEmptyContent (line : String) : Bool :=
  match sseDataPayload line with
  | none => false
  | some p =>
    if stripL p = "[DONE]".toList then false
    else
      match jsonLoadsL p with
      | none => false
      | some data => dataEmptyContent data

/-! ## Theorems about `_parse_sse_line` (claims C4, C2) -/

/-- `sseTail` returns the end-of-stream empty string exactly for a finish
chunk or an empty/absent content delta. -/
theorem sseTail_ok_str_iff (data : Json) :
    sseTail data = .ok (.str "") ↔
      (dataFinishStop data = true ∨ dataEmptyContent data = true) := by
  unfold sseTail dataFinishStop dataEmptyContent
  cases hch : pyGetD data "choices" (.arr []) with
  | error e => simp [hch]
  | ok choices =>
    cases ht : pyTruthy choices with
    | false => simp [hch, ht]
    | true =>
      cases hi : pyIndex0 choices with
      | error e => simp [hch, ht, hi]
      | ok choice =>
        cases hfr : pyGetD choice "finish_reason" .null with
        | error e => simp [hch, ht, hi, hfr]
        | ok fr =>
          cases hf : finishIsStop fr with
          | true => simp [hch, ht, hi, hfr, hf]
          | false =>
            cases hdl : pyGetD choice "delta" (.obj []) with
            | error e => simp [hch, ht, hi, hfr, hf, hdl]
            | ok delta =>
              cases hc : pyGetD delta "content" (.str "") with
              | error e => simp [hch, ht, hi, hfr, hf, hdl, hc]
              | ok v => cases v <;> simp [hch, ht, hi, hfr, hf, hdl, hc]

/-- `_parse_sse_line` factored through the payload extraction. -/
theorem parse_sse_line_eq_payload (line : String) :
    _parse_sse_line line =
      match sseDataPayload line with
      | none => .ok .null
      | some p =>
        if stripL p = "[DONE]".toList then .ok (.str "")
        else
          match jsonLoadsL p with
          | none => .ok .null
          | some data => sseTail data := by
  simp only [_parse_sse_line, sseDataPayload]
  by_cases h1 : (stripL line.toList).isEmpty = true
  · rw [if_pos h1, if_pos h1]
  · rw [if_neg h1, if_neg h1]
    by_cases h2 : [':'].isPrefixOf (stripL line.toList) = true
    · rw [if_pos h2, if_pos h2]
    · rw [if_neg h2, if_neg h2]
      by_cases h3 : (!"data: ".toList.isPrefixOf (stripL line.toList)) = true
      · rw [if_pos h3, if_pos h3]
      · rw [if_neg h3, if_neg h3]

/-- C4 counterexample: the claim's "empty string exactly for `[DONE]` or
`finish_reason` stop/length" fails — a decoded chunk whose delta carries no
`content` key also returns the empty string (the caller's end-of-stream
signal), and a decoded data line with an empty `choices` list yields the
ignore signal rather than delta text. -/
theorem c4_counterexample :
    _parse_sse_line "data: \x7b\"choices\":[\x7b\"delta\":\x7b\"role\":\"assistant\"\x7d\x7d]\x7d" = .ok (.str "") ∧
    sseIsDone "data: \x7b\"choices\":[\x7b\"delta\":\x7b\"role\":\"assistant\"\x7d\x7d]\x7d" = false ∧
    sseFinishStop "data: \x7b\"choices\":[\x7b\"delta\":\x7b\"role\":\"assistant\"\x7d\x7d]\x7d" = false ∧
    jsonLoadsL ("\x7b\"choices\":[]\x7d".toList) = some (.obj [("choices", .arr [])]) ∧
    _parse_sse_line "data: \x7b\"choices\":[]\x7d" = .ok .null :=
  ⟨rfl, rfl, rfl, rfl, rfl⟩

/-- C4 amended: `_parse_sse_line` returns the empty string exactly when the
line is the `[DONE]` sentinel, a decoded finish chunk (stop/length), or a
decoded chunk whose first choice has an empty or absent content delta;
blank, comment and non-data lines, malformed-JSON data lines (and decoded
data lines with falsy `choices`) yield the ignore signal `None`. -/
theorem c4_amended (line : String) :
    (_parse_sse_line line = .ok (.str "") ↔
      (sseIsDone line = true ∨ sseFinishStop line = true ∨ sseEmptyContent line = true)) ∧
    (sseDataPayload line = none → _parse_sse_line line = .ok .null) ∧
    (∀ p, sseDataPayload line = some p → stripL p ≠ "[DONE]".toList →
      jsonLoadsL p = none → _parse_sse_line line = .ok .null) := by
  have he := parse_sse_line_eq_payload line
  refine ⟨?_, ?_, ?_⟩
  · rw [he]
    unfold sseIsDone sseFinishStop sseEmptyContent
    cases hp : sseDataPayload line with
    | none => simp
    | some p =>
      by_cases hd : stripL p = "[DONE]".toList
      · simp [hd]
      · have hdL : ¬stripL p = ['[', 'D', 'O', 'N', 'E', ']'] := hd
        simp only [if_neg hd]
        cases hj : jsonLoadsL p with
        | none => simp [hdL]
        | some data => simp [hdL, sseTail_ok_str_iff]
  · intro h
    rw [he, h]
  · intro p hp hd hj
    rw [he, hp]
    simp only [if_neg hd, hj]

/-- C4 witness: the amended theorem applied to a non-data line and to a
malformed-JSON data line. -/
theorem c4_witness :
    _parse_sse_line "event: ping" = .ok .null ∧
    _parse_sse_line "data: \x7bnotjson" = .ok .null :=
  ⟨(c4_amended "event: ping").2.1 rfl,
   (c4_amended "data: \x7bnotjson").2.2 ("\x7bnotjson".toList) rfl (by decide) rfl⟩

/-- C2: the code's `_parse_sse_line` takes no decoder state and ignores
`reasoning_content` entirely — on the repository's own test line carrying a
reasoning delta it returns the empty string (the caller's end-of-stream
signal) instead of the expected `"<think>Let me think"`, and a plain content
line is returned verbatim with no closing `"</think>\n"` delimiter. -/
theorem c2_reasoning_content_dropped :
    _parse_sse_line "data: \x7b\"choices\":[\x7b\"delta\":\x7b\"reasoning_content\":\"Let me think\"\x7d,\"index\":0,\"finish_reason\":null\x7d]\x7d" = .ok (.str "") ∧
    _parse_sse_line "data: \x7b\"choices\":[\x7b\"delta\":\x7b\"content\":\"The answer is 42.\"\x7d,\"index\":0,\"finish_reason\":null\x7d]\x7d" = .ok (.str "The answer is 42.") :=
  ⟨rfl, rfl⟩

/-! ## `talos/tools.py`: `_TOOL_CALL_RE`, `parse_tool_calls`, `extract_reasoning` -/

/-- `ToolCall` from `tools.py`. `name`/`arguments` hold whatever dynamic values
`json.loads` produced (the source annotates them `str`/`dict` but never
enforces that). -/
structure ToolCall where
  name : Json
  arguments : Json
  raw : String

/-- Drop a literal from the front of the list, or fail. -/
def dropLit (pat l : List Char) : Option (List Char) :=
  if pat.isPrefixOf l then some (l.drop pat.length) else none

/-- The opening tag literal of `_TOOL_CALL_RE`. -/
def toolOpenTag : List Char := "<tool_call>".toList

/-- The closing tag literal of `_TOOL_CALL_RE`. -/
def toolCloseTag : List Char := "</tool_call>".toList

/-- The lazy `.*?\}\s*</tool_call>` tail of `_TOOL_CALL_RE`: scan for the
earliest `}` that is followed (after whitespace) by the closing tag. Returns
`(object body before the closing brace, the whitespace run after it, rest
after the closing tag)`. -/
def toolCloseScan : List Char → Option (List Char × List Char × List Char)
  | '}' :: r =>
    (match dropLit toolCloseTag (r.dropWhile isPySpace) with
     | some rest => some ([], r.takeWhile isPySpace, rest)
     | none => (toolCloseScan r).map (fun p => ('}' :: p.1, p.2)))
  | c :: r => (toolCloseScan r).map (fun p => (c :: p.1, p.2))
  | [] => none

/-- Attempt to match `_TOOL_CALL_RE` = `<tool_call>\s*(\{.*?\})\s*</tool_call>`
anchored at the head. Returns `(whole match = group(0), object body without
its outer braces, rest after the match)`. -/
def toolMatchAt (l : List Char) : Option (List Char × List Char × List Char) :=
  match dropLit toolOpenTag l with
  | none => none
  | some r1 =>
    match r1.dropWhile isPySpace with
    | '{' :: r3 =>
      match toolCloseScan r3 with
      | some (body, ws2, rest) =>
        some (toolOpenTag ++ r1.takeWhile isPySpace ++
                ('{' :: body ++ '}' :: ws2 ++ toolCloseTag),
              body, rest)
      | none => none
    | _ => none

/-- Leftmost match of `_TOOL_CALL_RE`: `(text before, group(0), object body,
rest after)`. -/
def toolFind : List Char → Option (List Char × List Char × List Char × List Char)
  | [] => none
  | c :: t =>
    match toolMatchAt (c :: t) with
    | some (raw, body, rest) => some ([], raw, body, rest)
    | none => (toolFind t).map (fun q => (c :: q.1, q.2.1, q.2.2.1, q.2.2.2))

/-- `finditer` over `_TOOL_CALL_RE`: all non-overlapping matches, left to
right, as `(group(0), object body)` pairs. Fuel of `length + 1` cannot run
out (each match consumes at least the two tags). -/
def toolScan : Nat → List Char → List (List Char × List Char)
  | 0, _ => []
  | fuel + 1, l =>
    match toolFind l with
    | none => []
    | some (_, raw, body, rest) => (raw, body) :: toolScan fuel rest

/-- `_TOOL_CALL_RE.sub("", text)`: the concatenation of the inter-match gaps. -/
def toolSub : Nat → List Char → List Char
  | 0, l => l
  | fuel + 1, l =>
    match toolFind l with
    | none => l
    | some (before, _, _, rest) => before ++ toolSub fuel rest

/-- `extract_reasoning` from `tools.py`: strip tool-call tags, then
`str.strip`. -/
def extract_reasoning (s : String) : String :=
  pyStrip (String.mk (toolSub (s.length + 1) s.toList))

/-- The body of `parse_tool_calls`' loop for one match: `json.loads` the
braced group (`group(1)` is the body with its braces restored), read `name`
and `arguments` defaults, re-parse a string-valued `arguments`, and keep the
call only under a truthy `name`; `.ok none` is a silently skipped entry
(a caught `JSONDecodeError`), `.error` an uncaught exception. -/
def processToolEntry (raw body : List Char) : Except String (Option ToolCall) :=
  match jsonLoadsL ('{' :: (body ++ ['}'])) with
  | none => .ok none
  | some data =>
    match pyGetD data "name" (.str ""), pyGetD data "arguments" (.obj []) with
    | .ok name, .ok args =>
      (match args with
       | .str s =>
         match jsonLoadsL s.toList with
         | none => .ok none
         | some args2 =>
           .ok (if pyTruthy name then some ⟨name, args2, String.mk raw⟩ else none)
       | _ => .ok (if pyTruthy name then some ⟨name, args, String.mk raw⟩ else none))
    | .error e, _ => .error e
    | .ok _, .error e => .error e

/-- The accumulation loop of `parse_tool_calls`, over the matches. -/
def toolCallsFromMatches : List (List Char × List Char) → Except String (List ToolCall)
  | [] => .ok []
  | (raw, body) :: ms =>
    match processToolEntry raw body with
    | .error e => .error e
    | .ok none => toolCallsFromMatches ms
    | .ok (some c) => (toolCallsFromMatches ms).map (fun cs => c :: cs)

/-- `parse_tool_calls` from `tools.py`. -/
def parse_tool_calls (s : String) : Except String (List ToolCall) :=
  toolCallsFromMatches (toolScan (s.length + 1) s.toList)

/-! ## Theorems about `parse_tool_calls` (claim C8) -/

/-- A successful `parseObjTail` yields an object. -/
theorem parseObjTail_obj (pv : List Char → Option (Json × List Char)) (r : List Char)
    (j : Json) (rr : List Char) (h : parseObjTail pv r = some (j, rr)) :
    ∃ ms, j = .obj ms := by
  unfold parseObjTail at h
  split at h
  · simp only [Option.some.injEq, Prod.mk.injEq] at h
    exact ⟨[], h.1.symm⟩
  · rcases Option.map_eq_some'.mp h with ⟨⟨ms, rr2⟩, _, heq⟩
    simp only [Prod.mk.injEq] at heq
    exact ⟨ms, heq.1.symm⟩

/-- A successful `parseVal` on input starting with `{` yields an object. -/
theorem parseVal_brace_obj (n : Nat) (l2 : List Char) (j : Json) (r : List Char)
    (h : parseVal (n + 1) ('{' :: l2) = some (j, r)) : ∃ ms, j = .obj ms := by
  have h2 : parseObjTail (parseVal n) l2 = some (j, r) := h
  exact parseObjTail_obj (parseVal n) l2 j r h2

/-- A successful `json.loads` on input starting with `{` yields an object. -/
theorem jsonLoadsL_brace_obj (l2 : List Char) (j : Json)
    (h : jsonLoadsL ('{' :: l2) = some j) : ∃ ms, j = .obj ms := by
  unfold jsonLoadsL at h
  cases hv : parseVal (('{' :: l2).length + 1) ('{' :: l2) with
  | none => rw [hv] at h; exact absurd h (by simp)
  | some pr =>
    obtain ⟨j2, r⟩ := pr
    rw [hv] at h
    have h2 : (if skipWs r = [] then some j2 else none) = some j := h
    by_cases he : skipWs r = []
    · rw [if_pos he] at h2
      obtain rfl : j2 = j := by injection h2
      exact parseVal_brace_obj (l2.length + 1) l2 _ r hv
    · rw [if_neg he] at h2
      exact absurd h2 (by simp)

/-- One match entry never raises, and any produced call has a truthy name. -/
theorem processToolEntry_ok (raw body : List Char) :
    ∃ oc, processToolEntry raw body = .ok oc ∧
      ∀ c, oc = some c → pyTruthy c.name = true := by
  unfold processToolEntry
  cases hj : jsonLoadsL ('{' :: (body ++ ['}'])) with
  | none => exact ⟨none, rfl, by simp⟩
  | some data =>
    obtain ⟨ms, rfl⟩ := jsonLoadsL_brace_obj (body ++ ['}']) data hj
    have key : ∀ a : Json,
        ∃ oc, (Except.ok (if pyTruthy (jsonObjGet ms "name" (.str "")) then
            some (⟨jsonObjGet ms "name" (.str ""), a, String.mk raw⟩ : ToolCall)
          else none) : Except String (Option ToolCall)) = .ok oc ∧
          ∀ c, oc = some c → pyTruthy c.name = true := by
      intro a
      cases ht : pyTruthy (jsonObjGet ms "name" (.str "")) with
      | false => exact ⟨none, by rw [if_neg (by simp)], by simp⟩
      | true =>
        refine ⟨some ⟨jsonObjGet ms "name" (.str ""), a, String.mk raw⟩,
          by rw [if_pos rfl], ?_⟩
        intro c hc
        cases hc
        exact ht
    cases hargs : jsonObjGet ms "arguments" (.obj []) with
    | str s =>
      cases hj2 : jsonLoadsL s.data with
      | none => exact ⟨none, by simp [pyGetD, hargs, hj2], by simp⟩
      | some args2 =>
        obtain ⟨oc, hoc, hn⟩ := key args2
        exact ⟨oc, by simp only [String.toList, pyGetD, hargs, hj2]; exact hoc, hn⟩
    | null =>
      obtain ⟨oc, hoc, hn⟩ := key .null
      exact ⟨oc, by simp only [pyGetD, hargs]; exact hoc, hn⟩
    | bool b =>
      obtain ⟨oc, hoc, hn⟩ := key (.bool b)
      exact ⟨oc, by simp only [pyGetD, hargs]; exact hoc, hn⟩
    | num w =>
      obtain ⟨oc, hoc, hn⟩ := key (.num w)
      exact ⟨oc, by simp only [pyGetD, hargs]; exact hoc, hn⟩
    | arr a =>
      obtain ⟨oc, hoc, hn⟩ := key (.arr a)
      exact ⟨oc, by simp only [pyGetD, hargs]; exact hoc, hn⟩
    | obj o =>
      obtain ⟨oc, hoc, hn⟩ := key (.obj o)
      exact ⟨oc, by simp only [pyGetD, hargs]; exact hoc, hn⟩

/-- C8: `parse_tool_calls` never raises — for every input it returns a plain
list of calls — and every returned call has a truthy (non-empty) `name`;
entries whose JSON fails to decode at either level or whose `name` is falsy
contribute nothing. -/
theorem c8_parse_tool_calls_total_and_named (text : String) :
    ∃ calls, parse_tool_calls text = .ok calls ∧
      ∀ c ∈ calls, pyTruthy c.name = true := by
  unfold parse_tool_calls
  induction toolScan (text.length + 1) text.toList with
  | nil => exact ⟨[], rfl, by simp⟩
  | cons m ms ih =>
    obtain ⟨calls, hok, hall⟩ := ih
    obtain ⟨raw, body⟩ := m
    obtain ⟨oc, hoc, hname⟩ := processToolEntry_ok raw body
    cases oc with
    | none => exact ⟨calls, by simp [toolCallsFromMatches, hoc, hok], hall⟩
    | some c =>
      refine ⟨c :: calls, by simp [toolCallsFromMatches, hoc, hok, Except.map], ?_⟩
      intro c2 hc2
      rcases List.mem_cons.mp hc2 with h | hmem
      · exact h ▸ hname c rfl
      · exact hall c2 hmem

/-- C8 witness: the theorem instantiated at the repository's own test input. -/
theorem c8_witness :
    ∃ calls, parse_tool_calls
        "<tool_call>\x7b\"name\": \"notify\", \"arguments\": \x7b\"title\": \"hi\"\x7d\x7d</tool_call>" =
      .ok calls ∧ ∀ c ∈ calls, pyTruthy c.name = true :=
  c8_parse_tool_calls_total_and_named
    "<tool_call>\x7b\"name\": \"notify\", \"arguments\": \x7b\"title\": \"hi\"\x7d\x7d</tool_call>"

/-! ## Theorems about `extract_reasoning` (claim C10) -/

/-- C10 counterexample: `extract_reasoning` is not idempotent — removing a
tool-call span can splice the surrounding text into a brand-new span, which
only a second pass removes. -/
theorem c10_counterexample :
    extract_reasoning "<tool_<tool_call>\x7b\x7d</tool_call>call>\x7b\x7d</tool_call>" =
      "<tool_call>\x7b\x7d</tool_call>" ∧
    extract_reasoning
        (extract_reasoning "<tool_<tool_call>\x7b\x7d</tool_call>call>\x7b\x7d</tool_call>") =
      "" :=
  ⟨rfl, rfl⟩

/-- `stripL` is right-trimming after left-trimming. -/
theorem stripL_eq_rdrop (l : List Char) :
    stripL l = List.rdropWhile isPySpace (List.dropWhile isPySpace l) := rfl

/-- A stripped list has no leading whitespace left. -/
theorem dropWhile_strip_self (l : List Char) :
    List.dropWhile isPySpace (stripL l) = stripL l := by
  rw [stripL_eq_rdrop]
  cases hx : List.rdropWhile isPySpace (List.dropWhile isPySpace l) with
  | nil => rfl
  | cons a t =>
    obtain ⟨u, hu⟩ := List.rdropWhile_prefix isPySpace (List.dropWhile isPySpace l)
    rw [hx] at hu
    have ha : isPySpace a = false := by
      by_contra hc
      rw [Bool.not_eq_false] at hc
      have h2 := List.dropWhile_idempotent isPySpace l
      rw [← hu, List.cons_append, List.dropWhile_cons, if_pos hc] at h2
      have hlen := congrArg List.length h2
      have hle := (List.dropWhile_suffix isPySpace (l := t ++ u)).length_le
      rw [List.length_cons, List.length_append] at hlen
      rw [List.length_append] at hle
      omega
    rw [List.dropWhile_cons, if_neg (by simp [ha])]

/-- `stripL` is idempotent. -/
theorem stripL_idem (l : List Char) : stripL (stripL l) = stripL l := by
  calc stripL (stripL l)
      = List.rdropWhile isPySpace (List.dropWhile isPySpace (stripL l)) := rfl
    _ = List.rdropWhile isPySpace (stripL l) := by rw [dropWhile_strip_self]
    _ = stripL l := by
        rw [stripL_eq_rdrop]
        exact List.rdropWhile_idempotent isPySpace (List.dropWhile isPySpace l)

/-- `str.strip` is idempotent. -/
theorem pyStrip_idem (t : String) : pyStrip (pyStrip t) = pyStrip t := by
  unfold pyStrip
  rw [show (String.mk (stripL t.toList)).toList = stripL t.toList from rfl, stripL_idem]

/-- C10 amended: `extract_reasoning` is idempotent on every input whose
single-pass output contains no tool-call span (in particular whenever
removing spans does not splice new delimiters together); in general a second
pass can strip more. -/
theorem c10_amended (s : String)
    (h : toolFind (extract_reasoning s).toList = none) :
    extract_reasoning (extract_reasoning s) = extract_reasoning s := by
  have hsub : toolSub ((extract_reasoning s).length + 1) (extract_reasoning s).toList
      = (extract_reasoning s).toList := by
    simp only [toolSub]
    rw [h]
  calc extract_reasoning (extract_reasoning s)
      = pyStrip (String.mk (toolSub ((extract_reasoning s).length + 1)
          (extract_reasoning s).toList)) := rfl
    _ = pyStrip (String.mk (extract_reasoning s).toList) := by rw [hsub]
    _ = pyStrip (pyStrip (String.mk (toolSub (s.length + 1) s.toList))) := rfl
    _ = pyStrip (String.mk (toolSub (s.length + 1) s.toList)) := pyStrip_idem _
    _ = extract_reasoning s := rfl

/-- C10 witness: the amended theorem applied to an input with one tool-call
span whose removal splices nothing together. -/
theorem c10_witness :
    extract_reasoning (extract_reasoning "hi <tool_call>\x7b\x7d</tool_call>") =
      extract_reasoning "hi <tool_call>\x7b\x7d</tool_call>" :=
  c10_amended "hi <tool_call>\x7b\x7d</tool_call>" rfl

/-! ## `talos/tui.py`: dangerous-command predicate and confirmation policy -/

/-- `DANGEROUS_PATTERNS` from `tui.py`. -/
def DANGEROUS_PATTERNS : List String :=
  ["rm -rf", "dd ", "mkfs", "fdisk", "parted", "systemctl stop", "kill -9",
   "chmod 777", "> /dev/", ":()\x7b :|:& \x7d;:"]

/-- `is_dangerous` from `tui.py`: the stripped command contains one of the
fixed destructive substrings. -/
def is_dangerous (command : String) : Bool :=
  DANGEROUS_PATTERNS.any (fun p => containsSub p.toList (pyStrip command).toList)

/-- The `should_prompt` decision of `_agentic_step`'s code-block path
(`tui.py` lines 572-578): prompt unless (auto-run and not dangerous), or
(mode `never` and not dangerous), or (mode `smart`, not dangerous and no
auto-run). -/
def should_prompt (auto_run : Bool) (confirm_mode : String) (dangerous : Bool) : Bool :=
  if auto_run && !dangerous then false
  else if confirm_mode == "never" && !dangerous then false
  else if confirm_mode == "smart" && !dangerous && !auto_run then false
  else true

/-- C3: a dangerous command is always prompted, in every mode and regardless
of the auto-run flag; in smart mode a prompt happens only for dangerous
commands (hence only when dangerous or auto-run not granted); in never mode
non-dangerous commands are never prompted. -/
theorem c3_confirmation_policy (confirm_mode : String) (auto_run : Bool) (command : String) :
    (is_dangerous command = true →
      should_prompt auto_run confirm_mode (is_dangerous command) = true) ∧
    (should_prompt auto_run "smart" (is_dangerous command) = true →
      is_dangerous command = true ∨ auto_run = false) ∧
    (is_dangerous command = false →
      should_prompt auto_run "never" (is_dangerous command) = false) := by
  refine ⟨?_, ?_, ?_⟩
  · intro h
    simp [should_prompt, h]
  · intro h
    by_cases hd : is_dangerous command = true
    · exact Or.inl hd
    · right
      rw [Bool.not_eq_true] at hd
      by_contra hc
      rw [Bool.not_eq_false] at hc
      simp [should_prompt, hd, hc] at h
  · intro h
    cases auto_run <;> simp [should_prompt, h]

/-- C3 witness: a dangerous command prompts even with auto-run granted in
`always` mode; a benign command in `never` mode does not prompt. -/
theorem c3_witness :
    should_prompt true "always" (is_dangerous "rm -rf /") = true ∧
    should_prompt false "never" (is_dangerous "ls -la") = false :=
  ⟨(c3_confirmation_policy "always" true "rm -rf /").1 (by decide),
   (c3_confirmation_policy "never" false "ls -la").2.2 (by decide)⟩

/-! ## `talos/shell.py`: `run` -/

/-- The observable outcome of the subprocess machinery for one invocation:
normal completion (with the process return code, possibly still unset),
a timeout of `asyncio.wait_for`, or any exception from spawning or awaiting
(whose message string is kept). -/
inductive ShellOutcome where
  | completed (returncode : Option Int) (stdout stderr : String)
  | timedOut
  | spawnError (msg : String)

/-- `Result` from `shell.py`. -/
structure Result where
  command : String
  code : Int
  stdout : String
  stderr : String
deriving DecidableEq

/-- The `ok` property of `Result`. -/
def Result.isOk (r : Result) : Bool := r.code == 0

/-- `run` from `shell.py`, indexed by the subprocess outcome: a completed
process yields its decoded output with `returncode or 0` (None becomes 0, any
integer is kept — `0 or 0` is `0`); a timeout kills the process and yields
the synthetic `(-1, "", "timed out")` failure; any other exception yields
`(-1, "", str(e))`. No branch raises. -/
def run (command : String) (outcome : ShellOutcome) : Result :=
  match outcome with
  | .completed rc out err =>
    { command := command
      code := match rc with | some n => n | none => 0
      stdout := out
      stderr := err }
  | .timedOut =>
    { command := command, code := -1, stdout := "", stderr := "timed out" }
  | .spawnError msg =>
    { command := command, code := -1, stdout := "", stderr := msg }

/-- C7: `run` is total over every outcome (never raises); a timeout yields
exactly the synthetic failure result with negative exit code, empty stdout
and `"timed out"` stderr; a spawn failure yields the analogous structured
failure; completion preserves the command. -/
theorem c7_shell_run_never_raises (command out err msg : String) (rc : Option Int) :
    run command .timedOut =
      { command := command, code := -1, stdout := "", stderr := "timed out" } ∧
    (run command .timedOut).code < 0 ∧
    run command (.spawnError msg) =
      { command := command, code := -1, stdout := "", stderr := msg } ∧
    (run command (.spawnError msg)).code < 0 ∧
    (run command (.completed rc out err)).command = command ∧
    (run command (.completed rc out err)).stdout = out ∧
    (run command (.completed rc out err)).stderr = err :=
  ⟨rfl, (by decide : (-1 : Int) < 0), rfl, (by decide : (-1 : Int) < 0), rfl, rfl, rfl⟩

/-! ## `talos/context_manager.py`: `estimate_tokens` and `smart_prune` -/

/-- `estimate_tokens`: `int(len(text) / 3.5)`; equals `2 * len / 7` in
integer arithmetic for every realistic length (see the header note). -/
def estimate_tokens (text : String) : Nat := 2 * text.length / 7

/-- `MIN_RECENT_TURNS` from `context_manager.py`. -/
def MIN_RECENT_TURNS : Nat := 6

/-- Step 1 of `smart_prune`: truncate a single turn whose estimate exceeds
1000 tokens to its first `int(500 * 3.5) = 1750` characters plus a marker. -/
def truncTurn (t : Turn) : Turn :=
  if estimate_tokens t.content > 1000 then
    { role := t.role, content := t.content.take 1750 ++ "\n...(truncated)" }
  else t

/-- Total estimated tokens of a turn list. -/
def sumEst (l : List Turn) : Nat := (l.map (fun t => estimate_tokens t.content)).sum

/-- Python's `l[-n:]`. -/
def lastN (n : Nat) (l : List Turn) : List Turn := l.drop (l.length - n)

/-- The `while middle:` loop of `smart_prune`: with `fixed` the estimate of
`first + recent`, drop middle turns from the front until the total fits or
the middle is exhausted. -/
def dropLoop (fixed target : Nat) : List Turn → List Turn
  | [] => []
  | m :: rest =>
    if fixed + sumEst (m :: rest) ≤ target then m :: rest
    else dropLoop fixed target rest

/-- `smart_prune` from `context_manager.py`: truncate long turns, return if
that already fits; keep short histories whole; otherwise split into
`first / middle / recent`, drop middle turns oldest-first until the total
fits, and fall back to `first + recent` if still over budget. -/
def smart_prune (history : List Turn) (target_tokens : Nat) : List Turn :=
  if history.isEmpty then []
  else
    let truncated := history.map truncTurn
    if sumEst truncated ≤ target_tokens then truncated
    else if truncated.length ≤ MIN_RECENT_TURNS + 1 then truncated
    else
      let first := truncated.take 1
      let recent := lastN MIN_RECENT_TURNS truncated
      let middle := (truncated.drop 1).take (truncated.length - 1 - MIN_RECENT_TURNS)
      let middle2 := dropLoop (sumEst first + sumEst recent) target_tokens middle
      let result := first ++ middle2 ++ recent
      if sumEst result > target_tokens then first ++ recent else result

/-! ## Theorems about `smart_prune` (claim C6) -/

/-- `dropLoop` only removes a prefix of the middle. -/
theorem dropLoop_drop (fixed target : Nat) (m : List Turn) :
    ∃ k, k ≤ m.length ∧ dropLoop fixed target m = m.drop k := by
  induction m with
  | nil => exact ⟨0, Nat.le_refl 0, rfl⟩
  | cons a rest ih =>
    by_cases hc : fixed + sumEst (a :: rest) ≤ target
    · exact ⟨0, Nat.zero_le _, by simp [dropLoop, hc]⟩
    · obtain ⟨k, hk, heq⟩ := ih
      refine ⟨k + 1, by simp; omega, ?_⟩
      simp [dropLoop, hc, heq]

/-- Distribution of `sumEst` over `++`. -/
theorem sumEst_append (a b : List Turn) : sumEst (a ++ b) = sumEst a + sumEst b := by
  simp [sumEst]

/-- C6: `smart_prune` returns the truncated history with its first turn kept,
a (possibly empty) run of middle turns removed oldest-first, and the last
`MIN_RECENT_TURNS` turns kept — formally the output is
`take 1 ++ drop j` of the truncated history for some cut `j` between `1` and
`length - MIN_RECENT_TURNS` — so it never reorders surviving turns; and
whenever the minimal keepable part (first turn plus recent window) fits the
target, the output's estimate fits the target. -/
theorem c6_smart_prune_spec (history : List Turn) (target : Nat) :
    (∃ j, 1 ≤ j ∧ j ≤ max 1 ((history.map truncTurn).length - MIN_RECENT_TURNS) ∧
      smart_prune history target =
        (history.map truncTurn).take 1 ++ (history.map truncTurn).drop j) ∧
    (sumEst ((history.map truncTurn).take 1 ++
        lastN MIN_RECENT_TURNS (history.map truncTurn)) ≤ target →
      sumEst (smart_prune history target) ≤ target) := by
  by_cases h0 : history.isEmpty = true
  · have h0e : history = [] := List.isEmpty_iff.mp h0
    subst h0e
    exact ⟨⟨1, Nat.le_refl 1, Nat.le_max_left 1 _, by simp [smart_prune]⟩,
      fun _ => by simp [smart_prune, sumEst]⟩
  · by_cases h2 : sumEst (history.map truncTurn) ≤ target
    · have he : smart_prune history target = history.map truncTurn := by
        simp [smart_prune, h0, h2]
      refine ⟨⟨1, Nat.le_refl 1, Nat.le_max_left 1 _, ?_⟩, fun _ => ?_⟩
      · rw [he, List.take_append_drop]
      · rw [he]; exact h2
    · by_cases h3 : (history.map truncTurn).length ≤ MIN_RECENT_TURNS + 1
      · have he : smart_prune history target = history.map truncTurn := by
          have h3h : history.length ≤ MIN_RECENT_TURNS + 1 := by simpa using h3
          simp [smart_prune, h0, h2, h3h]
        refine ⟨⟨1, Nat.le_refl 1, Nat.le_max_left 1 _, ?_⟩, fun hmin => ?_⟩
        · rw [he, List.take_append_drop]
        · exfalso
          apply h2
          refine le_trans ?_ hmin
          rw [sumEst_append]
          unfold lastN
          by_cases h6 : (history.map truncTurn).length ≤ MIN_RECENT_TURNS
          · rw [Nat.sub_eq_zero_of_le h6, List.drop_zero]
            exact Nat.le_add_left _ _
          · have h7 : (history.map truncTurn).length - MIN_RECENT_TURNS = 1 := by
              unfold MIN_RECENT_TURNS at h3 h6 ⊢
              omega
            rw [h7, ← sumEst_append, List.take_append_drop]
      · -- main pruning path
        obtain ⟨k, hk, hdk⟩ := dropLoop_drop
          (sumEst ((history.map truncTurn).take 1) +
            sumEst (lastN MIN_RECENT_TURNS (history.map truncTurn))) target
          (((history.map truncTurn).drop 1).take
            ((history.map truncTurn).length - 1 - MIN_RECENT_TURNS))
        have hn : MIN_RECENT_TURNS + 1 < (history.map truncTurn).length := by omega
        have hk2 : k ≤ (history.map truncTurn).length - 1 - MIN_RECENT_TURNS := by
          rw [List.length_take, List.length_drop] at hk
          exact le_trans hk (Nat.min_le_left _ _)
        have hmid : (((history.map truncTurn).drop 1).take
              ((history.map truncTurn).length - 1 - MIN_RECENT_TURNS)).drop k ++
            lastN MIN_RECENT_TURNS (history.map truncTurn)
            = (history.map truncTurn).drop (1 + k) := by
          rw [List.drop_take, List.drop_drop k 1 (history.map truncTurn)]
          unfold lastN
          have hsplit : (history.map truncTurn).length - MIN_RECENT_TURNS
              = (1 + k) + ((history.map truncTurn).length - 1 - MIN_RECENT_TURNS - k) := by
            unfold MIN_RECENT_TURNS at hn hk2 ⊢
            omega
          rw [hsplit,
            ← List.drop_drop ((history.map truncTurn).length - 1 - MIN_RECENT_TURNS - k)
              (1 + k) (history.map truncTurn)]
          exact List.take_append_drop _ _
        have hout : smart_prune history target =
            (if target < sumEst ((history.map truncTurn).take 1 ++
                ((((history.map truncTurn).drop 1).take
                  ((history.map truncTurn).length - 1 - MIN_RECENT_TURNS)).drop k ++
                lastN MIN_RECENT_TURNS (history.map truncTurn))) then
              (history.map truncTurn).take 1 ++ lastN MIN_RECENT_TURNS (history.map truncTurn)
            else
              (history.map truncTurn).take 1 ++
                ((((history.map truncTurn).drop 1).take
                  ((history.map truncTurn).length - 1 - MIN_RECENT_TURNS)).drop k ++
                lastN MIN_RECENT_TURNS (history.map truncTurn))) := by
          simp only [smart_prune, h0, Bool.false_eq_true, if_false, if_neg h2, if_neg h3, hdk,
            gt_iff_lt, List.append_assoc]
        by_cases h4 : target < sumEst ((history.map truncTurn).take 1 ++
            ((((history.map truncTurn).drop 1).take
              ((history.map truncTurn).length - 1 - MIN_RECENT_TURNS)).drop k ++
            lastN MIN_RECENT_TURNS (history.map truncTurn)))
        · rw [if_pos h4] at hout
          refine ⟨⟨(history.map truncTurn).length - MIN_RECENT_TURNS, ?_, Nat.le_max_right 1 _,
            ?_⟩, fun hmin => ?_⟩
          · unfold MIN_RECENT_TURNS at hn ⊢
            omega
          · rw [hout]; rfl
          · rw [hout]; exact hmin
        · rw [if_neg h4] at hout
          rw [hmid] at hout
          refine ⟨⟨1 + k, by omega, ?_, hout⟩, fun hmin => ?_⟩
          · refine le_trans ?_ (Nat.le_max_right 1 _)
            unfold MIN_RECENT_TURNS at hn hk2 ⊢
            omega
          · rw [hout, ← hmid]
            rw [Nat.not_lt] at h4
            rw [← List.append_assoc] at h4 ⊢
            exact h4

/-- C6 witness: a short concrete history whose minimal keepable part fits the
target, fed through the theorem's budget conjunct. -/
theorem c6_witness :
    sumEst (smart_prune [⟨"user", "hi"⟩, ⟨"assistant", "ok"⟩] 10) ≤ 10 :=
  (c6_smart_prune_spec [⟨"user", "hi"⟩, ⟨"assistant", "ok"⟩] 10).2 (by decide)

end Talos
